import Mathlib

/-
  Shallow embedding of src/rlog/handlers.py.

  PickleHandler (the SnapshotSink of the design document) accumulates log
  records into a per-stream snapshot mapping and rewrites one file per
  stream. TensorboardHandler (the MetricsSink) forwards each record to a
  visualization backend and keeps no state. The filesystem is modelled as
  an association list from file paths to snapshots; the pickle dump and
  load primitives are external collaborators and are modelled as storing
  and retrieving the snapshot value itself.
-/

namespace Rlog

/-- Values stored inside a snapshot field: raw strings for the text field,
and step-value-time triples for scalar metric fields. Scalar values are
modelled as integers and timestamps as naturals. -/
inductive Item where
  | str (s : String)
  | entry (step : Int) (value : Int) (time : Nat)
deriving DecidableEq

/-- A snapshot is a Python dict from field name to a list of items, in
insertion order. -/
abbrev Snapshot := List (String × List Item)

/-- The message of a log record: a string, a dict of scalars, or any other
value, represented here by a number, which the handlers reject. -/
inductive Msg where
  | text (s : String)
  | dict (kvs : List (String × Int))
  | num (n : Int)
deriving DecidableEq

/-- A log record: logger name, message, creation time. -/
structure Record where
  name : String
  msg : Msg
  created : Nat
deriving DecidableEq

/-- Errors raised by emit: TypeError for a message that is neither a
string nor a dict, AttributeError for a dict message without a step key. -/
inductive Err where
  | typeKind
  | missingFieldKind
deriving DecidableEq

/-- Embedding of logger_name.replace(".", "_"): every dot becomes an
underscore. -/
def replaceDots (s : String) : String :=
  String.mk (s.data.map (fun c => if c = '.' then '_' else c))

/-- Embedding of record.name.replace(".", "/"): every dot becomes a
slash. -/
def dotsToSlashes (s : String) : String :=
  String.mk (s.data.map (fun c => if c = '.' then '/' else c))

/-- File name used by PickleHandler for a logger name. -/
def fileName (loggerName : String) : String :=
  replaceDots loggerName ++ ".pkl"

/-- Full path of the pickle file for a logger name inside log_dir. -/
def filePath (logDir loggerName : String) : String :=
  logDir ++ "/" ++ fileName loggerName

/-- The filesystem, restricted to the pickle files: an association list
from path to the snapshot persisted there. -/
abbrev Store := List (String × Snapshot)

/-- Content of the file at a path, if one exists. -/
def storeLookup (st : Store) (p : String) : Option Snapshot :=
  match st with
  | [] => none
  | (q, d) :: rest => if q = p then some d else storeLookup rest p

/-- Write a snapshot at a path, replacing a previous file there. -/
def storeInsert (st : Store) (p : String) (d : Snapshot) : Store :=
  match st with
  | [] => [(p, d)]
  | (q, e) :: rest =>
      if q = p then (p, d) :: rest else (q, e) :: storeInsert rest p d

/-- Dict membership test on a snapshot. -/
def hasField (d : Snapshot) (k : String) : Bool :=
  match d with
  | [] => false
  | (j, _) :: rest => if j = k then true else hasField rest k

/-- Dict lookup on a snapshot. -/
def getField (d : Snapshot) (k : String) : Option (List Item) :=
  match d with
  | [] => none
  | (j, l) :: rest => if j = k then some l else getField rest k

/-- Embedding of the data[k].append(x) branch: the list stored under key k
grows by x at the end, order of keys unchanged. Keys of a Python dict are
unique, so updating the first matching entry is the dict mutation. -/
def appendAt : Snapshot → String → Item → Snapshot
  | [], _, _ => []
  | (j, l) :: rest, k, x =>
      if j = k then (j, l ++ [x]) :: rest else (j, l) :: appendAt rest k x

/-- The shared pattern of add_text and add_scalars: append to the list at
key k when the key exists, otherwise bind k to the singleton list. A new
key lands at the end, as in a Python dict. -/
def addItem (d : Snapshot) (k : String) (x : Item) : Snapshot :=
  if hasField d k then appendAt d k x else d ++ [(k, [x])]

/-- Embedding of PickleHandler add_text. -/
def addText (m : String) (d : Snapshot) : Snapshot :=
  addItem d "text" (Item.str m)

/-- Dict lookup on a scalar message. -/
def lookupKey (kvs : List (String × Int)) (k : String) : Option Int :=
  match kvs with
  | [] => none
  | (j, v) :: rest => if j = k then some v else lookupKey rest k

/-- Embedding of PickleHandler add_scalars: require the step key, then for
every other key append a step-value-time entry under that key. -/
def addScalars (created : Nat) (kvs : List (String × Int)) (d : Snapshot) :
    Except Err Snapshot :=
  match lookupKey kvs "step" with
  | none => Except.error Err.missingFieldKind
  | some step =>
      Except.ok (kvs.foldl
        (fun acc p =>
          if p.1 = "step" then acc
          else addItem acc p.1 (Item.entry step p.2 created)) d)

/-- The branch on the message shape inside PickleHandler emit. -/
def applyMsg (r : Record) (d : Snapshot) : Except Err Snapshot :=
  match r.msg with
  | Msg.text s => Except.ok (addText s d)
  | Msg.dict kvs => addScalars r.created kvs d
  | Msg.num _ => Except.error Err.typeKind

/-- Embedding of PickleHandler maybe_load: read the file for the logger
name, an absent file yields the empty dict. -/
def maybeLoad (st : Store) (logDir name : String) : Snapshot :=
  (storeLookup st (filePath logDir name)).getD []

/-- Embedding of PickleHandler save: rewrite the whole file. -/
def save (st : Store) (logDir name : String) (d : Snapshot) : Store :=
  storeInsert st (filePath logDir name) d

/-- Embedding of PickleHandler emit: load, branch on the message, save.
An error leaves the store untouched because save is never reached. -/
def emit (logDir : String) (st : Store) (r : Record) : Except Err Store :=
  match applyMsg r (maybeLoad st logDir r.name) with
  | Except.ok d => Except.ok (save st logDir r.name d)
  | Except.error e => Except.error e

/-- State of the filesystem after a call to emit, whether it raised or
not: a raised error keeps the previous store. -/
def runEmit (logDir : String) (st : Store) (r : Record) : Store :=
  match emit logDir st r with
  | Except.ok st' => st'
  | Except.error _ => st

/-- Deliver a sequence of records in order, stopping at the first
error. -/
def emitAll (logDir : String) (st : Store) (rs : List Record) :
    Except Err Store :=
  match rs with
  | [] => Except.ok st
  | r :: rest =>
      match emit logDir st r with
      | Except.ok st' => emitAll logDir st' rest
      | Except.error e => Except.error e

/-- A text record for a stream, from a message and a creation time. -/
def mkTextRecord (name : String) (p : String × Nat) : Record :=
  { name := name, msg := Msg.text p.1, created := p.2 }

/-- Calls made to the tensorboard SummaryWriter by TensorboardHandler. -/
inductive Output where
  | textOut (tag : String) (msg : String)
  | scalarOut (tag : String) (value : Int) (step : Int)
deriving DecidableEq

/-- Body of the loop in TensorboardHandler add_scalars: the step key is
skipped, every other key k with value v becomes one add_scalar call with
tag recName/k, value v and the given step. -/
def scalarOut (recName : String) (step : Int) (p : String × Int) :
    Option Output :=
  if p.1 = "step" then none
  else some (Output.scalarOut (recName ++ "/" ++ p.1) p.2 step)

/-- Embedding of TensorboardHandler add_scalars: require the step key,
then forward one scalar per remaining key, tagged stream/key. -/
def tbAddScalars (recName : String) (kvs : List (String × Int)) :
    Except Err (List Output) :=
  match lookupKey kvs "step" with
  | none => Except.error Err.missingFieldKind
  | some step => Except.ok (kvs.filterMap (scalarOut recName step))

/-- Embedding of TensorboardHandler emit: the list of backend calls the
handler performs for a record, or the error it raises. -/
def tbEmit (r : Record) : Except Err (List Output) :=
  match r.msg with
  | Msg.text s => Except.ok [Output.textOut (dotsToSlashes r.name) s]
  | Msg.dict kvs => tbAddScalars (dotsToSlashes r.name) kvs
  | Msg.num _ => Except.error Err.typeKind

theorem storeLookup_insert_self (st : Store) (p : String) (d : Snapshot) :
    storeLookup (storeInsert st p d) p = some d := by
  induction st with
  | nil => simp [storeInsert, storeLookup]
  | cons hd tl ih =>
      obtain ⟨q, e⟩ := hd
      by_cases h : q = p
      · simp [storeInsert, storeLookup, h]
      · simp [storeInsert, storeLookup, h, ih]

theorem storeLookup_insert_other (st : Store) (p q : String) (d : Snapshot)
    (h : p ≠ q) : storeLookup (storeInsert st p d) q = storeLookup st q := by
  induction st with
  | nil => simp [storeInsert, storeLookup, h]
  | cons hd tl ih =>
      obtain ⟨a, e⟩ := hd
      by_cases ha : a = p
      · subst ha; simp [storeInsert, storeLookup, h]
      · simp [storeInsert, storeLookup, ha, ih]

theorem maybeLoad_save_self (st : Store) (logDir name : String) (d : Snapshot) :
    maybeLoad (save st logDir name d) logDir name = d := by
  unfold maybeLoad save
  rw [storeLookup_insert_self]
  rfl

theorem getField_none_of_hasField_false (d : Snapshot) (k : String)
    (h : hasField d k = false) : getField d k = none := by
  induction d with
  | nil => rfl
  | cons hd tl ih =>
      obtain ⟨j, l⟩ := hd
      by_cases hj : j = k
      · simp [hasField, hj] at h
      · simp [hasField, hj] at h
        simp [getField, hj, ih h]

theorem getField_some_of_hasField (d : Snapshot) (k : String)
    (h : hasField d k = true) : ∃ l, getField d k = some l := by
  induction d with
  | nil => simp [hasField] at h
  | cons hd tl ih =>
      obtain ⟨j, l⟩ := hd
      by_cases hj : j = k
      · exact ⟨l, by simp [getField, hj]⟩
      · simp [hasField, hj] at h
        obtain ⟨l', hl'⟩ := ih h
        exact ⟨l', by simp [getField, hj, hl']⟩

theorem getField_appendAt_self (d : Snapshot) (k : String) (x : Item) :
    getField (appendAt d k x) k = (getField d k).map (fun l => l ++ [x]) := by
  induction d with
  | nil => rfl
  | cons hd tl ih =>
      obtain ⟨j, l⟩ := hd
      by_cases hj : j = k
      · simp [appendAt, getField, hj]
      · simp [appendAt, getField, hj] at ih ⊢
        exact ih

theorem getField_appendAt_other (d : Snapshot) (k j : String) (x : Item)
    (h : k ≠ j) : getField (appendAt d k x) j = getField d j := by
  induction d with
  | nil => rfl
  | cons hd tl ih =>
      obtain ⟨a, l⟩ := hd
      by_cases ha : a = j
      · subst ha
        simp [appendAt, getField, Ne.symm h]
      · by_cases hak : a = k
        · simp [appendAt, getField, hak, ha, h, ih]
        · simp [appendAt, getField, hak, ha, ih]

theorem hasField_appendAt (d : Snapshot) (k j : String) (x : Item) :
    hasField (appendAt d k x) j = hasField d j := by
  induction d with
  | nil => rfl
  | cons hd tl ih =>
      obtain ⟨a, l⟩ := hd
      by_cases hak : a = k
      · simp [appendAt, hasField, hak, ih]
      · simp [appendAt, hasField, hak, ih]

theorem getField_append_single_self (d : Snapshot) (k : String) (x : Item)
    (h : hasField d k = false) : getField (d ++ [(k, [x])]) k = some [x] := by
  induction d with
  | nil => simp [getField]
  | cons hd tl ih =>
      obtain ⟨a, l⟩ := hd
      by_cases ha : a = k
      · simp [hasField, ha] at h
      · simp [hasField, ha] at h
        simp [getField, ha, ih h]

theorem getField_append_single_other (d : Snapshot) (k j : String) (x : Item)
    (h : k ≠ j) : getField (d ++ [(k, [x])]) j = getField d j := by
  induction d with
  | nil => simp [getField, h]
  | cons hd tl ih =>
      obtain ⟨a, l⟩ := hd
      by_cases ha : a = j
      · simp [getField, ha]
      · simp [getField, ha, ih]

theorem hasField_append_single_other (d : Snapshot) (k j : String) (x : Item)
    (h : k ≠ j) : hasField (d ++ [(k, [x])]) j = hasField d j := by
  induction d with
  | nil => simp [hasField, h]
  | cons hd tl ih =>
      obtain ⟨a, l⟩ := hd
      by_cases ha : a = j
      · simp [hasField, ha]
      · simp [hasField, ha, ih]

theorem getField_addItem_self (d : Snapshot) (k : String) (x : Item) :
    getField (addItem d k x) k = some ((getField d k).getD [] ++ [x]) := by
  unfold addItem
  cases h : hasField d k with
  | true =>
      obtain ⟨l, hl⟩ := getField_some_of_hasField d k h
      simp [h, getField_appendAt_self, hl]
  | false =>
      simp [h, getField_append_single_self d k x h,
        getField_none_of_hasField_false d k h]

theorem getField_addItem_other (d : Snapshot) (k j : String) (x : Item)
    (h : k ≠ j) : getField (addItem d k x) j = getField d j := by
  unfold addItem
  cases hk : hasField d k with
  | true => simp [getField_appendAt_other d k j x h]
  | false => simp [getField_append_single_other d k j x h]

theorem hasField_addItem_other (d : Snapshot) (k j : String) (x : Item)
    (h : k ≠ j) : hasField (addItem d k x) j = hasField d j := by
  unfold addItem
  cases hk : hasField d k with
  | true => simp [hasField_appendAt]
  | false => simp [hasField_append_single_other d k j x h]

theorem emit_text_eq (logDir name m : String) (t : Nat) (st : Store) :
    emit logDir st { name := name, msg := Msg.text m, created := t } =
      Except.ok (save st logDir name (addText m (maybeLoad st logDir name))) := rfl

theorem getField_addText (d : Snapshot) (m : String) :
    getField (addText m d) "text" =
      some ((getField d "text").getD [] ++ [Item.str m]) :=
  getField_addItem_self d "text" (Item.str m)

theorem emitAll_texts (logDir name : String) :
    ∀ (msgs : List (String × Nat)) (st : Store) (l : List Item),
      getField (maybeLoad st logDir name) "text" = some l →
      ∃ st', emitAll logDir st (msgs.map (mkTextRecord name)) = Except.ok st' ∧
        getField (maybeLoad st' logDir name) "text" =
          some (l ++ msgs.map (fun p => Item.str p.1)) := by
  intro msgs
  induction msgs with
  | nil =>
      intro st l h
      exact ⟨st, rfl, by simpa using h⟩
  | cons p rest ih =>
      intro st l h
      have h1 : getField
          (maybeLoad (save st logDir name (addText p.1 (maybeLoad st logDir name)))
            logDir name) "text" = some (l ++ [Item.str p.1]) := by
        rw [maybeLoad_save_self, getField_addText, h]
        rfl
      obtain ⟨st', h2, h3⟩ :=
        ih (save st logDir name (addText p.1 (maybeLoad st logDir name)))
          (l ++ [Item.str p.1]) h1
      refine ⟨st', ?_, ?_⟩
      · rw [List.map_cons]
        show emitAll logDir st (mkTextRecord name p :: rest.map (mkTextRecord name)) =
          Except.ok st'
        unfold emitAll
        rw [show emit logDir st (mkTextRecord name p) =
          Except.ok (save st logDir name (addText p.1 (maybeLoad st logDir name))) from rfl]
        exact h2
      · rw [h3]
        simp

/-- C1: for every sequence of text records with the same stream name
delivered in order to the snapshot sink, starting from no persisted blob
for that stream, the persisted snapshot stores under the text field
exactly the submitted messages in submission order. -/
theorem snapshot_text_order (logDir name : String) (st : Store)
    (msgs : List (String × Nat))
    (h0 : storeLookup st (filePath logDir name) = none) (hne : msgs ≠ []) :
    ∃ st', emitAll logDir st (msgs.map (mkTextRecord name)) = Except.ok st' ∧
      getField (maybeLoad st' logDir name) "text" =
        some (msgs.map (fun p => Item.str p.1)) := by
  cases msgs with
  | nil => exact absurd rfl hne
  | cons p rest =>
      have hload : maybeLoad st logDir name = [] := by
        unfold maybeLoad; rw [h0]; rfl
      have h1 : getField
          (maybeLoad (save st logDir name (addText p.1 (maybeLoad st logDir name)))
            logDir name) "text" = some [Item.str p.1] := by
        rw [maybeLoad_save_self, hload]
        rfl
      obtain ⟨st', h2, h3⟩ :=
        emitAll_texts logDir name rest
          (save st logDir name (addText p.1 (maybeLoad st logDir name)))
          [Item.str p.1] h1
      refine ⟨st', ?_, ?_⟩
      · rw [List.map_cons]
        unfold emitAll
        rw [show emit logDir st (mkTextRecord name p) =
          Except.ok (save st logDir name (addText p.1 (maybeLoad st logDir name))) from rfl]
        exact h2
      · rw [h3]
        simp

/-- Witness for C1 at a concrete two-message run. -/
theorem snapshot_text_order_witness :
    storeLookup ([] : Store) (filePath "d" "x") = none ∧
    ([("m1", 0), ("m2", 1)] : List (String × Nat)) ≠ [] ∧
    ∃ st', emitAll "d" [] ([("m1", 0), ("m2", 1)].map (mkTextRecord "x")) = Except.ok st' ∧
      getField (maybeLoad st' "d" "x") "text" =
        some ([("m1", 0), ("m2", 1)].map (fun p => Item.str p.1)) :=
  ⟨rfl, by decide, snapshot_text_order "d" "x" [] [("m1", 0), ("m2", 1)] rfl (by decide)⟩

/-- C2: a mapping record with keys step and a, delivered to the snapshot
sink for a stream whose loaded snapshot has no step field, appends one
step-value-time entry under field a and creates no field named step. -/
theorem scalar_entry_no_step_field (logDir name : String) (st : Store)
    (s v : Int) (t : Nat)
    (h : hasField (maybeLoad st logDir name) "step" = false) :
    ∃ st',
      emit logDir st (Record.mk name (Msg.dict [("step", s), ("a", v)]) t) = Except.ok st' ∧
      getField (maybeLoad st' logDir name) "a" =
        some ((getField (maybeLoad st logDir name) "a").getD []
          ++ [Item.entry s v t]) ∧
      hasField (maybeLoad st' logDir name) "step" = false := by
  refine ⟨save st logDir name
      (addItem (maybeLoad st logDir name) "a" (Item.entry s v t)), rfl, ?_, ?_⟩
  · rw [maybeLoad_save_self]
    exact getField_addItem_self (maybeLoad st logDir name) "a" (Item.entry s v t)
  · rw [maybeLoad_save_self]
    rw [hasField_addItem_other (maybeLoad st logDir name) "a" "step"
      (Item.entry s v t) (by decide)]
    exact h

/-- Witness for C2 at a concrete input. -/
theorem scalar_entry_no_step_field_witness :
    hasField (maybeLoad [] "d" "x") "step" = false ∧
    ∃ st',
      emit "d" [] (Record.mk "x" (Msg.dict [("step", 3), ("a", 7)]) 5) = Except.ok st' ∧
      getField (maybeLoad st' "d" "x") "a" =
        some ((getField (maybeLoad [] "d" "x") "a").getD []
          ++ [Item.entry 3 7 5]) ∧
      hasField (maybeLoad st' "d" "x") "step" = false :=
  ⟨rfl, scalar_entry_no_step_field "d" "x" [] 3 7 5 rfl⟩

/-- C3: a mapping record without a step key makes both sinks raise the
missing-field error, and the snapshot sink saves nothing, leaving the
store exactly as it was. -/
theorem missing_step_error (logDir : String) (st : Store) (r : Record)
    (kvs : List (String × Int)) (hm : r.msg = Msg.dict kvs)
    (hs : lookupKey kvs "step" = none) :
    emit logDir st r = Except.error Err.missingFieldKind ∧
    runEmit logDir st r = st ∧
    tbEmit r = Except.error Err.missingFieldKind := by
  have h1 : emit logDir st r = Except.error Err.missingFieldKind := by
    simp [emit, applyMsg, hm, addScalars, hs]
  refine ⟨h1, ?_, ?_⟩
  · unfold runEmit
    rw [h1]
  · simp [tbEmit, hm, tbAddScalars, hs]

/-- Witness for C3 at a concrete record. -/
theorem missing_step_error_witness :
    ((Record.mk "x" (Msg.dict [("a", 1)]) 0) : Record).msg =
      Msg.dict [("a", 1)] ∧
    lookupKey [("a", 1)] "step" = none ∧
    (emit "d" [("d/x.pkl", [("text", [Item.str "old"])])]
        (Record.mk "x" (Msg.dict [("a", 1)]) 0) =
      Except.error Err.missingFieldKind ∧
    runEmit "d" [("d/x.pkl", [("text", [Item.str "old"])])]
        (Record.mk "x" (Msg.dict [("a", 1)]) 0) =
      [("d/x.pkl", [("text", [Item.str "old"])])] ∧
    tbEmit (Record.mk "x" (Msg.dict [("a", 1)]) 0) =
      Except.error Err.missingFieldKind) :=
  ⟨rfl, rfl, missing_step_error "d" [("d/x.pkl", [("text", [Item.str "old"])])]
    (Record.mk "x" (Msg.dict [("a", 1)]) 0) [("a", 1)] rfl rfl⟩

/-- C4: a record whose message is a number makes both sinks raise the
type error, and the snapshot sink leaves the store exactly as it was. -/
theorem wrong_type_error (logDir : String) (st : Store) (r : Record)
    (n : Int) (hm : r.msg = Msg.num n) :
    emit logDir st r = Except.error Err.typeKind ∧
    runEmit logDir st r = st ∧
    tbEmit r = Except.error Err.typeKind := by
  have h1 : emit logDir st r = Except.error Err.typeKind := by
    simp [emit, applyMsg, hm]
  refine ⟨h1, ?_, ?_⟩
  · unfold runEmit
    rw [h1]
  · simp [tbEmit, hm]

/-- Witness for C4 at a concrete record. -/
theorem wrong_type_error_witness :
    ((Record.mk "x" (Msg.num 5) 0) : Record).msg =
      Msg.num 5 ∧
    (emit "d" [("d/x.pkl", [("text", [Item.str "old"])])]
        (Record.mk "x" (Msg.num 5) 0) =
      Except.error Err.typeKind ∧
    runEmit "d" [("d/x.pkl", [("text", [Item.str "old"])])]
        (Record.mk "x" (Msg.num 5) 0) =
      [("d/x.pkl", [("text", [Item.str "old"])])] ∧
    tbEmit (Record.mk "x" (Msg.num 5) 0) =
      Except.error Err.typeKind) :=
  ⟨rfl, wrong_type_error "d" [("d/x.pkl", [("text", [Item.str "old"])])]
    (Record.mk "x" (Msg.num 5) 0) 5 rfl⟩

/-- C5: whenever emit succeeds, the store holds exactly the updated
snapshot that was saved, and loading the stream again, as a fresh handler
pointed at the same directory would, returns that same snapshot. -/
theorem write_reload_roundtrip (logDir : String) (st st' : Store)
    (r : Record) (h : emit logDir st r = Except.ok st') :
    ∃ d, applyMsg r (maybeLoad st logDir r.name) = Except.ok d ∧
      st' = save st logDir r.name d ∧
      maybeLoad st' logDir r.name = d := by
  unfold emit at h
  cases happ : applyMsg r (maybeLoad st logDir r.name) with
  | ok d =>
      rw [happ] at h
      have hst : st' = save st logDir r.name d := by
        cases h
        rfl
      exact ⟨d, rfl, hst, by rw [hst]; exact maybeLoad_save_self st logDir r.name d⟩
  | error e =>
      rw [happ] at h
      cases h

/-- Witness for C5 at a concrete successful write. -/
theorem write_reload_roundtrip_witness :
    emit "d" [] (Record.mk "x" (Msg.text "m") 0) =
      Except.ok [("d/x.pkl", [("text", [Item.str "m"])])] ∧
    ∃ d, applyMsg (Record.mk "x" (Msg.text "m") 0)
        (maybeLoad [] "d" "x") = Except.ok d ∧
      ([("d/x.pkl", [("text", [Item.str "m"])])] : Store) =
        save [] "d" "x" d ∧
      maybeLoad [("d/x.pkl", [("text", [Item.str "m"])])] "d" "x" = d :=
  ⟨rfl, write_reload_roundtrip "d" [] [("d/x.pkl", [("text", [Item.str "m"])])]
    (Record.mk "x" (Msg.text "m") 0) rfl⟩

/-- C9: loading a stream for which no blob is persisted yields the empty
snapshot; the load itself is a total function of the store, it cannot
fail. -/
theorem load_missing_blob_empty (st : Store) (logDir name : String)
    (h : storeLookup st (filePath logDir name) = none) :
    maybeLoad st logDir name = [] := by
  unfold maybeLoad
  rw [h]
  rfl

/-- Witness for C9 on the empty store. -/
theorem load_missing_blob_empty_witness :
    storeLookup ([("d/y.pkl", [])] : Store) (filePath "d" "x") = none ∧
    maybeLoad [("d/y.pkl", [])] "d" "x" = [] :=
  ⟨by decide, load_missing_blob_empty [("d/y.pkl", [])] "d" "x" (by decide)⟩

/-- C10: a mapping record whose only key is step is accepted by the
snapshot sink, appends nothing, and rewrites the blob for the stream with
the loaded snapshot unchanged, so the persisted content is the same and
the blob now exists. -/
theorem step_only_record_noop (logDir name : String) (st : Store)
    (s : Int) (t : Nat) :
    emit logDir st (Record.mk name (Msg.dict [("step", s)]) t) =
      Except.ok (save st logDir name (maybeLoad st logDir name)) ∧
    storeLookup (save st logDir name (maybeLoad st logDir name))
        (filePath logDir name) = some (maybeLoad st logDir name) ∧
    maybeLoad (save st logDir name (maybeLoad st logDir name)) logDir name =
      maybeLoad st logDir name :=
  ⟨rfl, storeLookup_insert_self st (filePath logDir name) (maybeLoad st logDir name),
    maybeLoad_save_self st logDir name (maybeLoad st logDir name)⟩

theorem strAppend_left_cancel (a b c : String) (h : a ++ b = a ++ c) :
    b = c := by
  have h2 := congrArg String.data h
  simp [String.data_append] at h2
  exact String.ext h2

theorem scalarOut_eq_iff (recName : String) (st : Int) (k k2 : String)
    (v v2 st2 : Int)
    (h : Output.scalarOut (recName ++ "/" ++ k) v st =
      Output.scalarOut (recName ++ "/" ++ k2) v2 st2) :
    k = k2 ∧ v = v2 ∧ st = st2 := by
  injection h with h1 h2 h3
  exact ⟨strAppend_left_cancel (recName ++ "/") k k2 h1, h2, h3⟩

theorem count_scalarOut_zero (recName : String) (st : Int)
    (kvs : List (String × Int)) (k : String) (v : Int)
    (hk : k ∉ kvs.map Prod.fst) :
    (kvs.filterMap (scalarOut recName st)).count
      (Output.scalarOut (recName ++ "/" ++ k) v st) = 0 := by
  induction kvs with
  | nil => rfl
  | cons q tl ih =>
      obtain ⟨a, w⟩ := q
      simp only [List.map_cons, List.mem_cons] at hk
      push_neg at hk
      obtain ⟨hak, htl⟩ := hk
      by_cases ha : a = "step"
      · simp [scalarOut, ha, ih htl]
      · have hne : Output.scalarOut (recName ++ "/" ++ a) w st ≠
            Output.scalarOut (recName ++ "/" ++ k) v st := by
          intro heq
          exact hak (scalarOut_eq_iff recName st a k w v st heq).1.symm
        simp [scalarOut, ha, List.count_cons, hne, ih htl]

theorem count_scalarOut_one (recName : String) (st : Int) :
    ∀ (kvs : List (String × Int)) (k : String) (v : Int),
      (kvs.map Prod.fst).Nodup → (k, v) ∈ kvs → k ≠ "step" →
      (kvs.filterMap (scalarOut recName st)).count
        (Output.scalarOut (recName ++ "/" ++ k) v st) = 1 := by
  intro kvs
  induction kvs with
  | nil =>
      intro k v _ hmem _
      simp at hmem
  | cons q tl ih =>
      intro k v hnd hmem hk
      obtain ⟨a, w⟩ := q
      simp only [List.map_cons, List.nodup_cons] at hnd
      obtain ⟨hna, hnd2⟩ := hnd
      rcases List.mem_cons.mp hmem with heq | htl
      · simp only [Prod.mk.injEq] at heq
        obtain ⟨rfl, rfl⟩ := heq
        have hz := count_scalarOut_zero recName st tl k v hna
        simp [scalarOut, hk, List.count_cons, hz]
      · have hkin : k ∈ tl.map Prod.fst := by
          exact List.mem_map_of_mem Prod.fst htl
        have hak : a ≠ k := by
          intro h
          exact hna (h ▸ hkin)
        by_cases ha : a = "step"
        · simp only [List.filterMap_cons, scalarOut, ha]
          simp [ih k v hnd2 htl hk]
        · have hne : Output.scalarOut (recName ++ "/" ++ a) w st ≠
              Output.scalarOut (recName ++ "/" ++ k) v st := by
            intro heq
            exact hak (scalarOut_eq_iff recName st a k w v st heq).1
          simp [scalarOut, ha, List.count_cons, hne, ih k v hnd2 htl hk]

/-- C6: a mapping record with step s delivered to the metrics sink
forwards, for every other key k with value v in the message, exactly one
scalar point tagged stream/k with value v at step s; the sink retains no
state, its output is a function of the record alone. -/
theorem metrics_forward_exactly_once (r : Record) (kvs : List (String × Int))
    (s v : Int) (k : String)
    (hm : r.msg = Msg.dict kvs) (hs : lookupKey kvs "step" = some s)
    (hnd : (kvs.map Prod.fst).Nodup) (hk : (k, v) ∈ kvs)
    (hne : k ≠ "step") :
    ∃ outs, tbEmit r = Except.ok outs ∧
      outs.count (Output.scalarOut (dotsToSlashes r.name ++ "/" ++ k) v s)
        = 1 := by
  refine ⟨kvs.filterMap (scalarOut (dotsToSlashes r.name) s), ?_, ?_⟩
  · simp [tbEmit, hm, tbAddScalars, hs]
  · exact count_scalarOut_one (dotsToSlashes r.name) s kvs k v hnd hk hne

/-- Witness for C6 at a concrete record. -/
theorem metrics_forward_exactly_once_witness :
    (Record.mk "train.loss" (Msg.dict [("step", 3), ("acc", 7)]) 0).msg =
      Msg.dict [("step", 3), ("acc", 7)] ∧
    lookupKey [("step", 3), ("acc", 7)] "step" = some 3 ∧
    ([("step", 3), ("acc", 7)].map Prod.fst).Nodup ∧
    (("acc", 7) : String × Int) ∈ [("step", 3), ("acc", 7)] ∧
    ("acc" : String) ≠ "step" ∧
    ∃ outs, tbEmit (Record.mk "train.loss" (Msg.dict [("step", 3), ("acc", 7)]) 0) =
        Except.ok outs ∧
      outs.count (Output.scalarOut
        (dotsToSlashes (Record.mk "train.loss" (Msg.dict [("step", 3), ("acc", 7)]) 0).name
          ++ "/" ++ "acc") 7 3) = 1 :=
  ⟨rfl, rfl, by decide, by decide, by decide,
    metrics_forward_exactly_once
      (Record.mk "train.loss" (Msg.dict [("step", 3), ("acc", 7)]) 0)
      [("step", 3), ("acc", 7)] 3 7 "acc" rfl rfl (by decide) (by decide)
      (by decide)⟩


/-- C7 counterexample: the code persists stream train.loss to the file
train_loss.pkl, not train_loss.blob; emitting over the empty store in
directory logs creates only the pkl path and a lookup at the blob path
finds nothing. -/
theorem snapshot_file_extension_cex :
    emit "logs" [] (Record.mk "train.loss" (Msg.text "m") 0) =
      Except.ok [("logs/train_loss.pkl", [("text", [Item.str "m"])])] ∧
    storeLookup [("logs/train_loss.pkl", [("text", [Item.str "m"])])]
      "logs/train_loss.blob" = none ∧
    fileName "train.loss" ≠ "train_loss.blob" :=
  ⟨rfl, rfl, by decide⟩

/-- C7 amended: stream name train.loss is persisted by the snapshot sink
at log_dir/train_loss.pkl, the dots replaced by underscores and the pkl
extension appended, and the metrics sink forwards it under the path
train/loss. -/
theorem name_translation_amended (logDir : String) (st : Store)
    (m : String) (t : Nat) :
    ∃ st', emit logDir st (Record.mk "train.loss" (Msg.text m) t) =
        Except.ok st' ∧
      storeLookup st' (logDir ++ "/" ++ "train_loss.pkl") =
        some (addText m (maybeLoad st logDir "train.loss")) ∧
      tbEmit (Record.mk "train.loss" (Msg.text m) t) =
        Except.ok [Output.textOut "train/loss" m] := by
  refine ⟨save st logDir "train.loss"
      (addText m (maybeLoad st logDir "train.loss")), rfl, ?_, rfl⟩
  have hp : filePath logDir "train.loss" = logDir ++ "/" ++ "train_loss.pkl" := by
    unfold filePath
    rw [show fileName "train.loss" = "train_loss.pkl" from rfl]
  unfold save
  rw [← hp]
  exact storeLookup_insert_self st (filePath logDir "train.loss")
      (addText m (maybeLoad st logDir "train.loss"))

theorem filePath_ne_of_replaceDots_ne (logDir n1 n2 : String)
    (h : replaceDots n1 ≠ replaceDots n2) :
    filePath logDir n1 ≠ filePath logDir n2 := by
  intro heq
  unfold filePath fileName at heq
  have hd := congrArg String.data heq
  simp [String.data_append] at hd
  exact h (String.ext hd)

/-- C8 counterexample: the distinct stream names a.b and a_b resolve to
the same file, so a record delivered under a.b lands in, and changes, the
persisted snapshot of a_b. -/
theorem stream_isolation_cex :
    ("a.b" : String) ≠ "a_b" ∧
    runEmit "d" [("d/a_b.pkl", [("text", [Item.str "old"])])]
        (Record.mk "a.b" (Msg.text "new") 0) =
      [("d/a_b.pkl", [("text", [Item.str "old", Item.str "new"])])] ∧
    storeLookup
        (runEmit "d" [("d/a_b.pkl", [("text", [Item.str "old"])])]
          (Record.mk "a.b" (Msg.text "new") 0))
        (filePath "d" "a_b") ≠
      storeLookup [("d/a_b.pkl", [("text", [Item.str "old"])])]
        (filePath "d" "a_b") := by
  refine ⟨by decide, rfl, by decide⟩

/-- C8 amended: two stream names that resolve to different storage keys,
that is, names still distinct after dots are replaced by underscores, are
isolated: a successful emit under the first leaves the persisted blob of
the second untouched. -/
theorem stream_isolation_amended (logDir n1 n2 : String) (st st' : Store)
    (r : Record) (hname : r.name = n1)
    (hkeys : replaceDots n1 ≠ replaceDots n2)
    (h : emit logDir st r = Except.ok st') :
    storeLookup st' (filePath logDir n2) =
      storeLookup st (filePath logDir n2) := by
  unfold emit at h
  cases happ : applyMsg r (maybeLoad st logDir r.name) with
  | ok d =>
      rw [happ] at h
      have hst : st' = save st logDir r.name d := by
        cases h
        rfl
      rw [hst]
      unfold save
      rw [hname]
      exact storeLookup_insert_other st (filePath logDir n1)
        (filePath logDir n2) d (filePath_ne_of_replaceDots_ne logDir n1 n2 hkeys)
  | error e =>
      rw [happ] at h
      cases h

/-- Witness for the amended C8 at concrete streams a and b. -/
theorem stream_isolation_amended_witness :
    (Record.mk "a" (Msg.text "m") 0).name = "a" ∧
    replaceDots "a" ≠ replaceDots "b" ∧
    emit "d" [] (Record.mk "a" (Msg.text "m") 0) =
      Except.ok [("d/a.pkl", [("text", [Item.str "m"])])] ∧
    storeLookup [("d/a.pkl", [("text", [Item.str "m"])])] (filePath "d" "b") =
      storeLookup ([] : Store) (filePath "d" "b") :=
  ⟨rfl, by decide, rfl,
    stream_isolation_amended "d" "a" "b" [] [("d/a.pkl", [("text", [Item.str "m"])])]
      (Record.mk "a" (Msg.text "m") 0) rfl (by decide) rfl⟩

end Rlog
